import Mathlib

/-!
Verification of the Promptify feature-vector ranking engine.

This file is a shallow embedding, over ℚ, of the core of
`logic/search_engine.py`, `data_class/recommendation_params.py` and
`config/model_consts.py`: the feature schema, the per-feature normalizer,
the weighted squared-distance scoring, the catalog top-N search
(`search_db`) and the candidate re-ranking path
(`rank_reccobeats_candidates`), together with the weighted-target
construction (`LocalSearchParams.get_search_data`).

Numbers are modelled as rationals. Python dictionaries holding candidate
tracks are modelled as association lists `List (String × Option ℚ)` with
first-key-wins lookup and Python-3.7 insertion-order update semantics
(updating an existing key replaces its value in place; a new key is
appended at the end). A Python value of `None` is `Option.none`.

`numpy` operations are embedded by their documented semantics:
broadcasting arithmetic on an `N×F` matrix against length-`F` vectors is
row-wise `zipWith`, `np.argsort` is a sort of the index list `range N` by
score (its order among exact ties is unspecified by numpy; we take the
stable refinement), and `np.argpartition(scores, k)` is refined by a full
argsort, which satisfies the partition postcondition (the first `k`
positions hold `k` smallest elements).
-/

namespace Promptify

/-- Feature schema from `config/model_consts.py` (`FEATURE_ORDER`). -/
def FEATURE_ORDER : List String :=
  ["acousticness", "danceability", "energy", "tempo", "valence", "popularity"]

/-- Default playlist length from `config/model_consts.py`. -/
def DEFAULT_PLAYLIST_LENGTH : ℕ := 5

/-- Embedding of `SearchEngine._normalize_value`.  The Python argument
`value` may be `None` (modelled by `Option.none`), in which case the
function returns `0.0`; otherwise it clamps below at `0` and scales
per-feature (`tempo` by 250, `popularity` by 100, everything else is
capped at `1`). -/
def normalize_value (feature_name : String) (value : Option ℚ) : ℚ :=
  match value with
  | none => 0
  | some v =>
    let non_negative_value : ℚ := max v 0
    if feature_name = "tempo" then min (non_negative_value / 250) 1
    else if feature_name = "popularity" then min (non_negative_value / 100) 1
    else min non_negative_value 1

/-- Embedding of `SearchEngine._calculate_weighted_distance`:
`diff = candidates_matrix - target_arr; squared_diff = diff ** 2;
weighted_diff = squared_diff * weights_arr; return weighted_diff.sum(axis=1)`.
Row-broadcast numpy arithmetic is element-wise `zipWith` on each row, and
`sum(axis=1)` sums each row. -/
def calculate_weighted_distance (candidates_matrix : List (List ℚ))
    (target_arr weights_arr : List ℚ) : List ℚ :=
  candidates_matrix.map (fun row =>
    (List.zipWith (fun sq w => sq * w)
      (List.zipWith (fun c t => (c - t) ^ 2) row target_arr)
      weights_arr).sum)

/-- Target normalization comprehension shared by `search_db` and
`rank_reccobeats_candidates`:
`[_normalize_value(f, val) for f, val in zip(FEATURE_ORDER, target_vector)]`. -/
def normalize_target (target_vector : List ℚ) : List ℚ :=
  (FEATURE_ORDER.zip target_vector).map (fun p => normalize_value p.1 (some p.2))

/-- One row of the metadata table (`meta_cols = ['track_id', 'track_name',
'artists']` loaded in `SearchEngine.load_data`). -/
structure Meta where
  track_id : String
  track_name : String
  artists : String
deriving DecidableEq, Inhabited, Repr

/-- One entry of the result list built at the end of `SearchEngine.search_db`. -/
structure SearchResult where
  track_id : String
  track_name : String
  artists : String
  score_squared : ℚ
deriving DecidableEq, Inhabited, Repr

/-- Index comparison by score, the key order underlying `np.argsort(scores)`. -/
def idx_le (scores : List ℚ) (i j : ℕ) : Prop :=
  scores.getD i 0 ≤ scores.getD j 0

instance (scores : List ℚ) : DecidableRel (idx_le scores) :=
  fun i j => inferInstanceAs (Decidable (scores.getD i 0 ≤ scores.getD j 0))

instance (scores : List ℚ) : IsTotal ℕ (idx_le scores) :=
  ⟨fun i j => le_total (scores.getD i 0) (scores.getD j 0)⟩

instance (scores : List ℚ) : IsTrans ℕ (idx_le scores) :=
  ⟨fun _ _ _ hij hjk => le_trans hij hjk⟩

/-- Embedding of `np.argsort(scores)`: the index list `0..N-1` sorted so
that the corresponding scores are ascending.  numpy leaves the relative
order of exact ties unspecified (default quicksort); we fix the stable
refinement that keeps ties in index order. -/
def argsort (scores : List ℚ) : List ℕ :=
  List.insertionSort (idx_le scores) (List.range scores.length)

/-- Embedding of `np.argpartition(scores, k)`.  numpy guarantees only that
the first `k` positions hold (some) `k` smallest scores, in unspecified
order; a fully argsorted index list is a valid refinement of that
postcondition, and we use it. -/
def argpartition (scores : List ℚ) (_k : ℕ) : List ℕ :=
  argsort scores

/-- Score vector computed inside `search_db`: batched weighted distance of
the catalog rows against the normalized target. -/
def db_scores (features_matrix : List (List ℚ)) (target_vector weights_vector : List ℚ) :
    List ℚ :=
  calculate_weighted_distance features_matrix (normalize_target target_vector)
    weights_vector

/-- One result dictionary appended in `search_db`'s final loop: the
metadata row `self.metadata_df.iloc[idx]` and the score at the same
index. -/
def result_at (metadata_df : List Meta) (scores : List ℚ) (idx : ℕ) : SearchResult :=
  { track_id := (metadata_df.getD idx default).track_id
    track_name := (metadata_df.getD idx default).track_name
    artists := (metadata_df.getD idx default).artists
    score_squared := scores.getD idx 0 }

/-- Embedding of `SearchEngine.search_db` on a loaded engine: the state
fields `self.features_matrix` and `self.metadata_df` are explicit
arguments (the lazy `load_data` disk path is outside this embedding).
Mirrors the source: length precondition check raising `ValueError`
(modelled as `Except.error`), target normalization, batched scoring,
then the full-argsort branch when `top_n >= num_songs` and the
argpartition-then-sort branch otherwise, and finally the metadata lookup
`self.metadata_df.iloc[idx]` by the same index as the scored row. -/
def search_db (features_matrix : List (List ℚ)) (metadata_df : List Meta)
    (target_vector weights_vector : List ℚ) (top_n : ℕ) :
    Except String (List SearchResult) :=
  let expected_len := FEATURE_ORDER.length
  if target_vector.length ≠ expected_len ∨ weights_vector.length ≠ expected_len then
    Except.error ("Input vector length mismatch. Expected " ++ toString expected_len ++
      " features, but got target(" ++ toString target_vector.length ++
      ") and weights(" ++ toString weights_vector.length ++ ").")
  else
    let scores := db_scores features_matrix target_vector weights_vector
    let num_songs := scores.length
    let top_indices_sorted :=
      if num_songs ≤ top_n then argsort scores
      else
        let top_indices := (argpartition scores top_n).take top_n
        List.insertionSort (idx_le scores) top_indices
    Except.ok (top_indices_sorted.map (result_at metadata_df scores))

/-- A Python dict for a candidate track: an association list whose lookup
reads the first occurrence of a key, carrying the numeric-or-`None`
feature payload of a ReccoBeats candidate. -/
abbrev Dict := List (String × Option ℚ)

/-- Python `track.get(key, dflt)`. -/
def dict_get (d : Dict) (key : String) (dflt : Option ℚ) : Option ℚ :=
  match List.lookup key d with
  | some v => v
  | none => dflt

/-- Python `d[key] = v` on a dict (after `d = track.copy()`): replaces the
value in place when the key is present, otherwise appends the new pair at
the end (CPython insertion-order semantics). -/
def dict_set (d : Dict) (key : String) (v : Option ℚ) : Dict :=
  if (List.lookup key d).isSome then
    d.map (fun p => if p.1 = key then (key, v) else p)
  else
    d ++ [(key, v)]

/-- Score stored on an annotated candidate: `x['match_score_squared']`
(the sort key of `ranked_results.sort`; the key is always present when
read, so the fallback values are never exercised there). -/
def score_of (d : Dict) : ℚ :=
  (dict_get d "match_score_squared" none).getD 0

/-- Candidate order used by `ranked_results.sort(key=lambda x: x['match_score_squared'])`. -/
def cand_le (a b : Dict) : Prop := score_of a ≤ score_of b

instance : DecidableRel cand_le :=
  fun a b => inferInstanceAs (Decidable (score_of a ≤ score_of b))

instance : IsTotal Dict cand_le := ⟨fun a b => le_total (score_of a) (score_of b)⟩

instance : IsTrans Dict cand_le := ⟨fun _ _ _ h h' => le_trans h h'⟩

/-- Row extraction and normalization for one candidate inside
`rank_reccobeats_candidates`: for each feature of the schema, in order,
`raw_val = track.get(f, 0.0); norm_val = _normalize_value(f, raw_val)`. -/
def build_candidate_row (track : Dict) : List ℚ :=
  FEATURE_ORDER.map (fun f => normalize_value f (dict_get track f (some 0)))

/-- Weight handling of `rank_reccobeats_candidates`: the entry at
`FEATURE_ORDER.index('popularity')` is overwritten with `0.0`
(`List.set` is the numpy element assignment; the index `5` is in range
for the length-`F` vectors this function is called with). -/
def rb_weights (weights_vector : List ℚ) : List ℚ :=
  weights_vector.set (FEATURE_ORDER.indexOf "popularity") 0

/-- Scores computed inside `rank_reccobeats_candidates` before annotation:
batched weighted distance of the normalized candidate rows against the
normalized target under the popularity-masked weights. -/
def rank_scores (candidates_list : List Dict) (target_vector weights_vector : List ℚ) :
    List ℚ :=
  calculate_weighted_distance (candidates_list.map build_candidate_row)
    (normalize_target target_vector) (rb_weights weights_vector)

/-- The list `ranked_results` built (before sorting) in
`rank_reccobeats_candidates`: a copy of each input candidate, in input
order, with its score written under `'match_score_squared'`. -/
def annotated_results (candidates_list : List Dict)
    (target_vector weights_vector : List ℚ) : List Dict :=
  (candidates_list.enum).map (fun p =>
    dict_set p.2 "match_score_squared"
      (some ((rank_scores candidates_list target_vector weights_vector).getD p.1 0)))

/-- Embedding of `SearchEngine.rank_reccobeats_candidates`: empty guard,
popularity weight forced to zero, target normalization, candidate matrix
extraction/normalization, scoring, annotation of a copy of each candidate
with `match_score_squared`, and a stable ascending sort by that score
(Python `list.sort` is stable; we embed it as insertion sort, which is
stable). -/
def rank_reccobeats_candidates (candidates_list : List Dict)
    (target_vector weights_vector : List ℚ) : List Dict :=
  if candidates_list = [] then []
  else
    List.insertionSort cand_le
      (annotated_results candidates_list target_vector weights_vector)

/-- Embedding of the pydantic model `AudioFeatures` from
`data_class/recommendation_params.py`: each target value is optional
(`None` when the interpreter left the feature unset).  `popularity` is an
`Optional[int]` in the source; Python's `float(val)` conversion is the
identity under the ℚ embedding. -/
structure AudioFeatures where
  acousticness : Option ℚ
  danceability : Option ℚ
  energy : Option ℚ
  tempo : Option ℚ
  valence : Option ℚ
  popularity : Option ℚ
deriving DecidableEq, Repr

/-- Python `getattr(self.target_features, feature)` for the six schema
feature names (any other name would raise `AttributeError`; it is never
reached because iteration is over `FEATURE_ORDER`). -/
def AudioFeatures.get (a : AudioFeatures) (feature : String) : Option ℚ :=
  if feature = "acousticness" then a.acousticness
  else if feature = "danceability" then a.danceability
  else if feature = "energy" then a.energy
  else if feature = "tempo" then a.tempo
  else if feature = "valence" then a.valence
  else if feature = "popularity" then a.popularity
  else none

/-- Embedding of the pydantic model `FeatureWeights`: one weight per
schema feature. -/
structure FeatureWeights where
  acousticness_weight : ℚ
  danceability_weight : ℚ
  energy_weight : ℚ
  tempo_weight : ℚ
  valence_weight : ℚ
  popularity_weight : ℚ
deriving DecidableEq, Repr

/-- Python `getattr(self.feature_weights, f"{feature}_weight")` for the six
schema feature names. -/
def FeatureWeights.get (w : FeatureWeights) (feature : String) : ℚ :=
  if feature = "acousticness" then w.acousticness_weight
  else if feature = "danceability" then w.danceability_weight
  else if feature = "energy" then w.energy_weight
  else if feature = "tempo" then w.tempo_weight
  else if feature = "valence" then w.valence_weight
  else if feature = "popularity" then w.popularity_weight
  else 0

/-- Embedding of `LocalSearchParams`. -/
structure LocalSearchParams where
  target_features : AudioFeatures
  feature_weights : FeatureWeights
deriving DecidableEq, Repr

/-- Embedding of `LocalSearchParams.get_search_data`: iterate over
`FEATURE_ORDER`; a `None` target value contributes `(0.0, 0.0)` regardless
of the configured weight, a present value contributes
`(float(val), float(weight))`.  The Python loop appends to two lists in
lockstep, i.e. unzips a per-feature pair list. -/
def get_search_data (p : LocalSearchParams) : List ℚ × List ℚ :=
  let pairs := FEATURE_ORDER.map (fun feature =>
    match p.target_features.get feature with
    | none => ((0 : ℚ), (0 : ℚ))
    | some val => (val, p.feature_weights.get feature))
  (pairs.map Prod.fst, pairs.map Prod.snd)

/-! ### Shared helper lemmas -/

/-- Reading a mapped list at an in-range index applies the function to the
source entry, for any defaults. -/
theorem list_getD_map {α β : Type} (g : α → β) (l : List α) {i : ℕ}
    (h : i < l.length) (d : β) (d' : α) : (l.map g).getD i d = g (l.getD i d') := by
  rw [List.getD_eq_getElem _ d (by simpa using h), List.getD_eq_getElem _ d' h,
    List.getElem_map]

/-- The inner sum of `_calculate_weighted_distance` on one row, written as
a sum over feature indices in the claim's operand order. -/
theorem weighted_row_sum (row t w : List ℚ) (hr : row.length = t.length)
    (hw : w.length = t.length) :
    (List.zipWith (fun sq wt => sq * wt)
        (List.zipWith (fun c tt => (c - tt) ^ 2) row t) w).sum
      = ∑ i in Finset.range t.length,
          w.getD i 0 * (row.getD i 0 - t.getD i 0) ^ 2 := by
  induction t generalizing row w with
  | nil =>
    have h1 : row = [] := List.length_eq_zero.mp hr
    have h2 : w = [] := List.length_eq_zero.mp hw
    subst h1 h2
    simp
  | cons th tt ih =>
    cases row with
    | nil => simp at hr
    | cons rh rt =>
      cases w with
      | nil => simp at hw
      | cons wh wt =>
        simp only [List.length_cons, Nat.succ.injEq] at hr hw
        rw [List.length_cons, Finset.sum_range_succ']
        simp only [List.getD_cons_succ, List.getD_cons_zero]
        rw [← ih rt wt hr hw]
        simp only [List.zipWith_cons_cons, List.sum_cons]
        ring

/-- Reading each index of a list through `getD` reconstructs the list. -/
theorem map_getD_range (s : List ℚ) :
    (List.range s.length).map (fun i => s.getD i 0) = s := by
  apply List.ext_getElem (by simp)
  intro i h1 h2
  simp [List.getD_eq_getElem _ _ h2, List.getElem?_eq_getElem h2]

/-- The argsorted index list is a permutation of `0..N-1`. -/
theorem argsort_perm (s : List ℚ) : List.Perm (argsort s) (List.range s.length) :=
  List.perm_insertionSort _ _

/-- Argsort keeps the number of indices. -/
theorem argsort_length (s : List ℚ) : (argsort s).length = s.length := by
  simp [argsort]

/-- Argsort produces indices in score order. -/
theorem argsort_sorted (s : List ℚ) : List.Sorted (idx_le s) (argsort s) :=
  List.sorted_insertionSort _ _

/-- Membership in the argsorted index list is exactly in-range-ness. -/
theorem mem_argsort {s : List ℚ} {i : ℕ} : i ∈ argsort s ↔ i < s.length := by
  rw [(argsort_perm s).mem_iff, List.mem_range]

/-- Reading the scores along the argsorted indices yields all scores in
ascending order. -/
theorem map_getD_argsort (s : List ℚ) :
    (argsort s).map (fun i => s.getD i 0) = List.insertionSort (· ≤ ·) s := by
  unfold argsort
  rw [List.map_insertionSort (idx_le s) (fun a b => a ≤ b) (fun i => s.getD i 0)
    (List.range s.length) (fun _ _ _ _ => Iff.rfl), map_getD_range]

/-- A prefix of a sorted list is sorted. -/
theorem sorted_take {α : Type} {r : α → α → Prop} {l : List α}
    (h : List.Sorted r l) (n : ℕ) : List.Sorted r (l.take n) :=
  List.Pairwise.sublist (List.take_sublist n l) h

/-- Both selection branches of `search_db` produce the first `top_n`
entries of the fully argsorted index list: the full-sort branch because
taking at least the whole list changes nothing, the argpartition branch
because re-sorting a sorted prefix changes nothing. -/
theorem top_indices_eq (s : List ℚ) (k : ℕ) :
    (if s.length ≤ k then argsort s
     else List.insertionSort (idx_le s) ((argpartition s k).take k))
      = (argsort s).take k := by
  split_ifs with h
  · exact (List.take_of_length_le (by rw [argsort_length]; exact h)).symm
  · exact List.Sorted.insertionSort_eq (sorted_take (argsort_sorted s) k)

/-- The number of scores equals the number of catalog rows. -/
theorem db_scores_length (f : List (List ℚ)) (tv wv : List ℚ) :
    (db_scores f tv wv).length = f.length := by
  simp [db_scores, calculate_weighted_distance]

/-- When the length precondition holds, `search_db` returns the results
built from the first `top_n` argsorted indices. -/
theorem search_db_eq_ok (f : List (List ℚ)) (m : List Meta) (tv wv : List ℚ)
    (k : ℕ) (h1 : tv.length = FEATURE_ORDER.length)
    (h2 : wv.length = FEATURE_ORDER.length) :
    search_db f m tv wv k
      = Except.ok (((argsort (db_scores f tv wv)).take k).map
          (result_at m (db_scores f tv wv))) := by
  unfold search_db
  rw [if_neg (by simp [h1, h2])]
  dsimp only
  rw [top_indices_eq]

/-- Looking up a key right after `dict_set` on that key reads the value
just written. -/
theorem lookup_dict_set_self (d : Dict) (key : String) (v : Option ℚ) :
    List.lookup key (dict_set d key v) = some v := by
  induction d with
  | nil => simp [dict_set, List.lookup]
  | cons hd tl ih =>
    by_cases hk : hd.1 = key
    · simp [dict_set, List.lookup, hk]
    · have hne : (key == hd.1) = false := by
        simpa [beq_iff_eq] using fun h => hk h.symm
      by_cases hs : (List.lookup key tl).isSome
      · have heq : dict_set (hd :: tl) key v
            = hd :: (tl.map (fun p => if p.1 = key then (key, v) else p)) := by
          simp [dict_set, List.lookup, hne, hs, hk]
        rw [heq]
        have htl : dict_set tl key v
            = tl.map (fun p => if p.1 = key then (key, v) else p) := by
          simp [dict_set, hs]
        simp only [List.lookup, hne]
        rw [← htl, ih]
      · have heq : dict_set (hd :: tl) key v = hd :: (tl ++ [(key, v)]) := by
          simp [dict_set, List.lookup, hne, hs]
        rw [heq]
        have htl : dict_set tl key v = tl ++ [(key, v)] := by
          simp [dict_set, hs]
        simp only [List.lookup, hne]
        rw [← htl, ih]

/-- Reading the sort key right after writing it. -/
theorem dict_get_set_self (d : Dict) (key : String) (v : Option ℚ) (dflt : Option ℚ) :
    dict_get (dict_set d key v) key dflt = v := by
  simp [dict_get, lookup_dict_set_self]

/-- When the key is absent, `dict_set` appends the new pair at the end. -/
theorem dict_set_of_lookup_none (d : Dict) (key : String) (v : Option ℚ)
    (h : List.lookup key d = none) : dict_set d key v = d ++ [(key, v)] := by
  simp [dict_set, h]

/-- Looking up a key absent from `d` in `d ++ [(key, v)]` finds `v`. -/
theorem lookup_append_singleton (d : Dict) (key : String) (v : Option ℚ)
    (h : List.lookup key d = none) :
    List.lookup key (d ++ [(key, v)]) = some v := by
  induction d with
  | nil => simp [List.lookup]
  | cons hd tl ih =>
    rw [List.lookup] at h
    rcases hbeq : (key == hd.1) with _ | _
    · rw [hbeq] at h
      rw [List.cons_append, List.lookup, hbeq]
      exact ih h
    · rw [hbeq] at h
      simp at h

/-- A weighted sum with an all-zero weight list is zero. -/
theorem zipWith_mul_sum_zero (xs w : List ℚ) (h : ∀ x ∈ w, x = 0) :
    (List.zipWith (fun sq wt => sq * wt) xs w).sum = 0 := by
  induction xs generalizing w with
  | nil => simp
  | cons x xt ih =>
    cases w with
    | nil => simp
    | cons wh wt =>
      have h0 : wh = 0 := h wh (List.mem_cons_self wh wt)
      simp only [List.zipWith_cons_cons, List.sum_cons, h0, mul_zero, zero_add]
      exact ih wt (fun y hy => h y (List.mem_cons_of_mem wh hy))

/-- Every entry read from an all-zero list by `getD` with default zero is
zero. -/
theorem getD_zero_of_all_zero (s : List ℚ) (h : ∀ x ∈ s, x = 0) (i : ℕ) :
    s.getD i 0 = 0 := by
  by_cases hi : i < s.length
  · rw [List.getD_eq_getElem _ _ hi]
    exact h _ (List.getElem_mem hi)
  · rw [List.getD_eq_default _ _ (le_of_not_lt hi)]

/-! ### Claim theorems -/

/-- C1: for every N-by-F candidate matrix, target vector and weight vector
of matching feature length, the batched scoring function returns one score
per row, the r-th score is `Σ_i weight[i] * (M[r][i] - t[i])^2`, and the
batched matrix path coincides with scoring each row independently through
the same function. -/
theorem calculate_weighted_distance_spec (M : List (List ℚ)) (t w : List ℚ)
    (hM : ∀ row ∈ M, row.length = t.length) (hw : w.length = t.length) :
    (calculate_weighted_distance M t w).length = M.length ∧
    (∀ r, r < M.length →
      (calculate_weighted_distance M t w).getD r 0
        = ∑ i in Finset.range t.length,
            w.getD i 0 * ((M.getD r []).getD i 0 - t.getD i 0) ^ 2) ∧
    calculate_weighted_distance M t w
      = M.map (fun row => (calculate_weighted_distance [row] t w).getD 0 0) := by
  refine ⟨by simp [calculate_weighted_distance], ?_, by simp [calculate_weighted_distance]⟩
  intro r hr
  have hmem : M.getD r [] ∈ M := by
    rw [List.getD_eq_getElem _ _ hr]
    exact List.getElem_mem hr
  rw [calculate_weighted_distance, list_getD_map _ _ hr _ []]
  exact weighted_row_sum _ t w (hM _ hmem) hw

/-- Witness for C1 at a concrete 2-by-2 instance. -/
theorem calculate_weighted_distance_spec_witness :
    (∀ row ∈ [[(5 : ℚ), 6], [7, 8]], row.length = [(1 : ℚ), 2].length) ∧
    [(3 : ℚ), 4].length = [(1 : ℚ), 2].length ∧
    ((calculate_weighted_distance [[(5 : ℚ), 6], [7, 8]] [1, 2] [3, 4]).length
        = [[(5 : ℚ), 6], [7, 8]].length ∧
      (∀ r, r < [[(5 : ℚ), 6], [7, 8]].length →
        (calculate_weighted_distance [[(5 : ℚ), 6], [7, 8]] [1, 2] [3, 4]).getD r 0
          = ∑ i in Finset.range [(1 : ℚ), 2].length,
              [(3 : ℚ), 4].getD i 0 *
                (([[(5 : ℚ), 6], [7, 8]].getD r []).getD i 0 - [(1 : ℚ), 2].getD i 0) ^ 2) ∧
      calculate_weighted_distance [[(5 : ℚ), 6], [7, 8]] [1, 2] [3, 4]
        = [[(5 : ℚ), 6], [7, 8]].map
            (fun row => (calculate_weighted_distance [row] [1, 2] [3, 4]).getD 0 0)) :=
  ⟨by decide, by decide,
    calculate_weighted_distance_spec [[(5 : ℚ), 6], [7, 8]] [1, 2] [3, 4]
      (by decide) (by decide)⟩

/-- C4: the normalizer is a pure total function into `[0,1]`: it clamps
and rescales `tempo` by 250 and `popularity` by 100, clamps everything
else into `[0,1]`, and rejects nothing. -/
theorem normalize_value_contract (f : String) (v : ℚ) :
    0 ≤ normalize_value f (some v) ∧ normalize_value f (some v) ≤ 1 ∧
    normalize_value "tempo" (some v) = min (max v 0) 250 / 250 ∧
    normalize_value "popularity" (some v) = min (max v 0) 100 / 100 ∧
    (f ≠ "tempo" → f ≠ "popularity" → normalize_value f (some v) = min (max v 0) 1) := by
  refine ⟨?_, ?_, ?_, ?_, ?_⟩
  · simp only [normalize_value]
    split_ifs
    · exact le_min (div_nonneg (le_max_right v 0) (by norm_num)) zero_le_one
    · exact le_min (div_nonneg (le_max_right v 0) (by norm_num)) zero_le_one
    · exact le_min (le_max_right v 0) zero_le_one
  · simp only [normalize_value]
    split_ifs <;> exact min_le_right _ _
  · simp only [normalize_value, if_pos rfl]
    rw [← min_div_div_right (by norm_num : (0 : ℚ) ≤ 250)]
    norm_num
  · simp only [normalize_value]
    rw [if_neg (by decide), if_pos (by trivial),
      ← min_div_div_right (by norm_num : (0 : ℚ) ≤ 100)]
    norm_num
  · intro h1 h2
    simp [normalize_value, h1, h2]

/-- Witness for C4: an out-of-range `energy` value is clamped, not
rejected. -/
theorem normalize_value_contract_witness :
    ("energy" : String) ≠ "tempo" ∧ ("energy" : String) ≠ "popularity" ∧
    normalize_value "energy" (some 3) = min (max (3 : ℚ) 0) 1 :=
  ⟨by decide, by decide,
    (normalize_value_contract "energy" 3).2.2.2.2 (by decide) (by decide)⟩

/-- C3: zero-weight neutrality holds exactly: scores are invariant under
arbitrary changes of candidate or target entries at every index whose
weight is zero (the two matrices and the two targets may differ wherever
the weight vanishes, and must agree only where it does not). -/
theorem zero_weight_neutrality (M M' : List (List ℚ)) (t t' w : List ℚ)
    (hM : ∀ row ∈ M, row.length = t.length)
    (hM' : ∀ row ∈ M', row.length = t.length)
    (hlen : M.length = M'.length) (ht : t'.length = t.length)
    (hw : w.length = t.length)
    (hat : ∀ i, i < t.length → w.getD i 0 ≠ 0 → t.getD i 0 = t'.getD i 0)
    (haM : ∀ r, r < M.length → ∀ i, i < t.length → w.getD i 0 ≠ 0 →
      (M.getD r []).getD i 0 = (M'.getD r []).getD i 0) :
    calculate_weighted_distance M t w = calculate_weighted_distance M' t' w := by
  apply List.ext_getElem
  · simp [calculate_weighted_distance, hlen]
  · intro r h1 h2
    have hr : r < M.length := by
      simpa [calculate_weighted_distance] using h1
    have hr' : r < M'.length := hlen ▸ hr
    rw [← List.getD_eq_getElem _ 0 h1, ← List.getD_eq_getElem _ 0 h2]
    have hmem : M.getD r [] ∈ M := by
      rw [List.getD_eq_getElem _ _ hr]; exact List.getElem_mem hr
    have hmem' : M'.getD r [] ∈ M' := by
      rw [List.getD_eq_getElem _ _ hr']; exact List.getElem_mem hr'
    rw [calculate_weighted_distance, list_getD_map _ _ hr _ [],
      calculate_weighted_distance, list_getD_map _ _ hr' _ []]
    rw [weighted_row_sum _ t w (hM _ hmem) hw,
      weighted_row_sum _ t' w (by rw [ht]; exact hM' _ hmem') (by rw [ht]; exact hw)]
    rw [ht]
    apply Finset.sum_congr rfl
    intro i hi
    rw [Finset.mem_range] at hi
    by_cases hwi : w.getD i 0 = 0
    · rw [hwi]; ring
    · rw [hat i hi hwi, haM r hr i hi hwi]

/-- Witness for C3: changing the candidate and target entries at the
zero-weight feature index leaves the scores unchanged. -/
theorem zero_weight_neutrality_witness :
    (∀ row ∈ [[(3 : ℚ), 4]], row.length = [(1 : ℚ), 2].length) ∧
    (∀ row ∈ [[(3 : ℚ), 9]], row.length = [(1 : ℚ), 2].length) ∧
    [[(3 : ℚ), 4]].length = [[(3 : ℚ), 9]].length ∧
    [(1 : ℚ), 5].length = [(1 : ℚ), 2].length ∧
    [(1 : ℚ), 0].length = [(1 : ℚ), 2].length ∧
    (∀ i, i < [(1 : ℚ), 2].length → [(1 : ℚ), 0].getD i 0 ≠ 0 →
      [(1 : ℚ), 2].getD i 0 = [(1 : ℚ), 5].getD i 0) ∧
    (∀ r, r < [[(3 : ℚ), 4]].length → ∀ i, i < [(1 : ℚ), 2].length →
      [(1 : ℚ), 0].getD i 0 ≠ 0 →
      ([[(3 : ℚ), 4]].getD r []).getD i 0 = ([[(3 : ℚ), 9]].getD r []).getD i 0) ∧
    calculate_weighted_distance [[(3 : ℚ), 4]] [1, 2] [1, 0]
      = calculate_weighted_distance [[(3 : ℚ), 9]] [1, 5] [1, 0] :=
  ⟨by decide, by decide, by decide, by decide, by decide, by decide, by decide,
    zero_weight_neutrality [[(3 : ℚ), 4]] [[(3 : ℚ), 9]] [1, 2] [1, 5] [1, 0]
      (by decide) (by decide) (by decide) (by decide) (by decide)
      (by decide) (by decide)⟩

/-- C9: `search_db` enforces the length precondition: a target or weight
vector whose length differs from the Feature Schema length produces the
descriptive `ValueError` (no truncation or padding), and when both lengths
match no length error is raised and a result list is returned. -/
theorem search_db_length_guard (f : List (List ℚ)) (m : List Meta)
    (tv wv : List ℚ) (k : ℕ) :
    ((tv.length ≠ FEATURE_ORDER.length ∨ wv.length ≠ FEATURE_ORDER.length) →
      search_db f m tv wv k
        = Except.error ("Input vector length mismatch. Expected "
            ++ toString FEATURE_ORDER.length ++ " features, but got target("
            ++ toString tv.length ++ ") and weights(" ++ toString wv.length ++ ").")) ∧
    (tv.length = FEATURE_ORDER.length → wv.length = FEATURE_ORDER.length →
      ∃ res, search_db f m tv wv k = Except.ok res) := by
  constructor
  · intro h
    unfold search_db
    rw [if_pos h]
  · intro h1 h2
    exact ⟨_, search_db_eq_ok f m tv wv k h1 h2⟩

/-- Witness for C9: empty vectors are rejected with the descriptive error,
length-6 vectors are accepted. -/
theorem search_db_length_guard_witness :
    (([] : List ℚ).length ≠ FEATURE_ORDER.length ∨
      ([] : List ℚ).length ≠ FEATURE_ORDER.length) ∧
    search_db [[0, 0, 0, 0, 0, 0]] [⟨"a", "A", "aa"⟩] [] [] 1
      = Except.error ("Input vector length mismatch. Expected "
          ++ toString FEATURE_ORDER.length ++ " features, but got target("
          ++ toString ([] : List ℚ).length ++ ") and weights("
          ++ toString ([] : List ℚ).length ++ ").") ∧
    [(0 : ℚ), 0, 0, 0, 0, 0].length = FEATURE_ORDER.length ∧
    ∃ res, search_db [[0, 0, 0, 0, 0, 0]] [⟨"a", "A", "aa"⟩]
        [0, 0, 0, 0, 0, 0] [0, 0, 0, 0, 0, 0] 1 = Except.ok res :=
  ⟨by decide,
    (search_db_length_guard [[0, 0, 0, 0, 0, 0]] [⟨"a", "A", "aa"⟩] [] [] 1).1
      (by decide),
    by decide,
    (search_db_length_guard [[0, 0, 0, 0, 0, 0]] [⟨"a", "A", "aa"⟩]
        [0, 0, 0, 0, 0, 0] [0, 0, 0, 0, 0, 0] 1).2 (by decide) (by decide)⟩

/-- C2: on a loaded, row-aligned catalog and schema-length vectors,
`search_db` succeeds and returns exactly `min top_n N` results; their
scores are, in order, the first `top_n` entries of the full ascending sort
of all `N` scores (so the returned rows are precisely `top_n`
lowest-scoring ones, in ascending order), and every result is built from
the metadata row and the score at one common catalog index.  Both the
full-sort branch and the argpartition branch of the selection are covered:
the proof goes through `top_indices_eq`, which equates the two branches. -/
theorem search_db_top_n (features : List (List ℚ)) (metadata : List Meta)
    (tv wv : List ℚ) (k : ℕ)
    (h1 : tv.length = FEATURE_ORDER.length) (h2 : wv.length = FEATURE_ORDER.length)
    (_hm : metadata.length = features.length) (_hk : 0 < k) :
    ∃ res : List SearchResult,
      search_db features metadata tv wv k = Except.ok res ∧
      res.length = min k features.length ∧
      res.map SearchResult.score_squared
        = (List.insertionSort (fun a b => a ≤ b) (db_scores features tv wv)).take k ∧
      List.Sorted (fun a b => a ≤ b) (res.map SearchResult.score_squared) ∧
      (∀ j, j < res.length → ∃ i, i < features.length ∧
        res.getD j default = result_at metadata (db_scores features tv wv) i) := by
  refine ⟨((argsort (db_scores features tv wv)).take k).map
      (result_at metadata (db_scores features tv wv)),
    search_db_eq_ok features metadata tv wv k h1 h2, ?_, ?_, ?_, ?_⟩
  · simp [argsort_length, db_scores_length]
  · rw [List.map_map, List.map_take]
    have hmap : (argsort (db_scores features tv wv)).map
        (SearchResult.score_squared ∘ result_at metadata (db_scores features tv wv))
          = List.insertionSort (fun a b => a ≤ b) (db_scores features tv wv) := by
      rw [← map_getD_argsort (db_scores features tv wv)]
      exact List.map_congr_left (fun i _ => rfl)
    rw [hmap]
  · rw [List.map_map, List.map_take]
    have hmap : (argsort (db_scores features tv wv)).map
        (SearchResult.score_squared ∘ result_at metadata (db_scores features tv wv))
          = List.insertionSort (fun a b => a ≤ b) (db_scores features tv wv) := by
      rw [← map_getD_argsort (db_scores features tv wv)]
      exact List.map_congr_left (fun i _ => rfl)
    rw [hmap]
    exact sorted_take (List.sorted_insertionSort _ _) k
  · intro j hj
    rw [List.length_map] at hj
    refine ⟨((argsort (db_scores features tv wv)).take k).getD j 0, ?_, ?_⟩
    · have hmem : ((argsort (db_scores features tv wv)).take k).getD j 0
          ∈ (argsort (db_scores features tv wv)).take k := by
        rw [List.getD_eq_getElem _ _ hj]
        exact List.getElem_mem hj
      have hmem2 : ((argsort (db_scores features tv wv)).take k).getD j 0
          ∈ argsort (db_scores features tv wv) :=
        (List.take_sublist k _).mem hmem
      have := mem_argsort.mp hmem2
      rwa [db_scores_length] at this
    · exact list_getD_map _ _ hj default 0

/-- Witness for C2 on a concrete 2-row catalog with `top_n = 1`. -/
theorem search_db_top_n_witness :
    [(1 : ℚ), 0, 0, 0, 0, 0].length = FEATURE_ORDER.length ∧
    [(1 : ℚ), 1, 1, 1, 1, 1].length = FEATURE_ORDER.length ∧
    [Meta.mk "a" "A" "aa", Meta.mk "b" "B" "bb"].length
      = [[(0 : ℚ), 0, 0, 0, 0, 0], [1, 1, 1, 1, 1, 1]].length ∧
    0 < 1 ∧
    (∃ res : List SearchResult,
      search_db [[(0 : ℚ), 0, 0, 0, 0, 0], [1, 1, 1, 1, 1, 1]]
          [Meta.mk "a" "A" "aa", Meta.mk "b" "B" "bb"]
          [1, 0, 0, 0, 0, 0] [1, 1, 1, 1, 1, 1] 1 = Except.ok res ∧
      res.length = min 1 [[(0 : ℚ), 0, 0, 0, 0, 0], [1, 1, 1, 1, 1, 1]].length ∧
      res.map SearchResult.score_squared
        = (List.insertionSort (fun a b => a ≤ b)
            (db_scores [[(0 : ℚ), 0, 0, 0, 0, 0], [1, 1, 1, 1, 1, 1]]
              [1, 0, 0, 0, 0, 0] [1, 1, 1, 1, 1, 1])).take 1 ∧
      List.Sorted (fun a b => a ≤ b) (res.map SearchResult.score_squared) ∧
      (∀ j, j < res.length →
        ∃ i, i < [[(0 : ℚ), 0, 0, 0, 0, 0], [1, 1, 1, 1, 1, 1]].length ∧
          res.getD j default
            = result_at [Meta.mk "a" "A" "aa", Meta.mk "b" "B" "bb"]
                (db_scores [[(0 : ℚ), 0, 0, 0, 0, 0], [1, 1, 1, 1, 1, 1]]
                  [1, 0, 0, 0, 0, 0] [1, 1, 1, 1, 1, 1]) i)) :=
  ⟨by decide, by decide, by decide, by decide,
    search_db_top_n [[(0 : ℚ), 0, 0, 0, 0, 0], [1, 1, 1, 1, 1, 1]]
      [Meta.mk "a" "A" "aa", Meta.mk "b" "B" "bb"]
      [1, 0, 0, 0, 0, 0] [1, 1, 1, 1, 1, 1] 1
      (by decide) (by decide) (by decide) (by decide)⟩

/-- C5: `get_search_data` iterates in Feature Schema order and produces
two parallel length-`F` vectors; a feature whose target value is `None`
yields `target[i] = 0` and `weight[i] = 0` regardless of the configured
weight, a present feature yields the provided value and the provided
weight. -/
theorem get_search_data_spec (p : LocalSearchParams) (i : ℕ)
    (hi : i < FEATURE_ORDER.length) :
    (get_search_data p).1.length = FEATURE_ORDER.length ∧
    (get_search_data p).2.length = FEATURE_ORDER.length ∧
    (p.target_features.get (FEATURE_ORDER.getD i "") = none →
      (get_search_data p).1.getD i 0 = 0 ∧ (get_search_data p).2.getD i 0 = 0) ∧
    (∀ v, p.target_features.get (FEATURE_ORDER.getD i "") = some v →
      (get_search_data p).1.getD i 0 = v ∧
      (get_search_data p).2.getD i 0
        = p.feature_weights.get (FEATURE_ORDER.getD i "")) := by
  have hlen : (FEATURE_ORDER.map (fun feature =>
      match p.target_features.get feature with
      | none => ((0 : ℚ), (0 : ℚ))
      | some val => (val, p.feature_weights.get feature))).length
        = FEATURE_ORDER.length := by simp
  have h1 : (get_search_data p).1.getD i 0
      = (match p.target_features.get (FEATURE_ORDER.getD i "") with
         | none => ((0 : ℚ), (0 : ℚ))
         | some val => (val, p.feature_weights.get (FEATURE_ORDER.getD i ""))).1 := by
    unfold get_search_data
    dsimp only
    rw [list_getD_map Prod.fst _ (by rw [hlen]; exact hi) 0 ((0 : ℚ), (0 : ℚ)),
      list_getD_map _ _ hi ((0 : ℚ), (0 : ℚ)) ""]
  have h2 : (get_search_data p).2.getD i 0
      = (match p.target_features.get (FEATURE_ORDER.getD i "") with
         | none => ((0 : ℚ), (0 : ℚ))
         | some val => (val, p.feature_weights.get (FEATURE_ORDER.getD i ""))).2 := by
    unfold get_search_data
    dsimp only
    rw [list_getD_map Prod.snd _ (by rw [hlen]; exact hi) 0 ((0 : ℚ), (0 : ℚ)),
      list_getD_map _ _ hi ((0 : ℚ), (0 : ℚ)) ""]
  refine ⟨by simp [get_search_data], by simp [get_search_data], ?_, ?_⟩
  · intro h
    rw [h] at h1 h2
    exact ⟨h1, h2⟩
  · intro v h
    rw [h] at h1 h2
    exact ⟨h1, h2⟩

/-- Witness for C5: a present `acousticness` target (index 0) passes its
value and weight through. -/
theorem get_search_data_spec_witness :
    (0 < FEATURE_ORDER.length) ∧
    ((get_search_data ⟨⟨some 1, none, none, none, none, none⟩,
        ⟨1/2, 1/2, 1/2, 1/2, 1/2, 1/2⟩⟩).1.length = FEATURE_ORDER.length ∧
      (get_search_data ⟨⟨some 1, none, none, none, none, none⟩,
        ⟨1/2, 1/2, 1/2, 1/2, 1/2, 1/2⟩⟩).2.length = FEATURE_ORDER.length ∧
      ((⟨⟨some 1, none, none, none, none, none⟩,
          ⟨1/2, 1/2, 1/2, 1/2, 1/2, 1/2⟩⟩ : LocalSearchParams).target_features.get
            (FEATURE_ORDER.getD 0 "") = none →
        (get_search_data ⟨⟨some 1, none, none, none, none, none⟩,
          ⟨1/2, 1/2, 1/2, 1/2, 1/2, 1/2⟩⟩).1.getD 0 0 = 0 ∧
        (get_search_data ⟨⟨some 1, none, none, none, none, none⟩,
          ⟨1/2, 1/2, 1/2, 1/2, 1/2, 1/2⟩⟩).2.getD 0 0 = 0) ∧
      (∀ v, (⟨⟨some 1, none, none, none, none, none⟩,
          ⟨1/2, 1/2, 1/2, 1/2, 1/2, 1/2⟩⟩ : LocalSearchParams).target_features.get
            (FEATURE_ORDER.getD 0 "") = some v →
        (get_search_data ⟨⟨some 1, none, none, none, none, none⟩,
          ⟨1/2, 1/2, 1/2, 1/2, 1/2, 1/2⟩⟩).1.getD 0 0 = v ∧
        (get_search_data ⟨⟨some 1, none, none, none, none, none⟩,
          ⟨1/2, 1/2, 1/2, 1/2, 1/2, 1/2⟩⟩).2.getD 0 0
          = (⟨⟨some 1, none, none, none, none, none⟩,
              ⟨1/2, 1/2, 1/2, 1/2, 1/2, 1/2⟩⟩ : LocalSearchParams).feature_weights.get
                (FEATURE_ORDER.getD 0 ""))) :=
  ⟨by decide,
    get_search_data_spec ⟨⟨some 1, none, none, none, none, none⟩,
      ⟨1/2, 1/2, 1/2, 1/2, 1/2, 1/2⟩⟩ 0 (by decide)⟩

/-- Normalizing a raw value of zero yields zero for every feature. -/
theorem normalize_value_zero (f : String) : normalize_value f (some 0) = 0 := by
  simp only [normalize_value]
  split_ifs <;> norm_num

/-- C6: in candidate re-ranking mode the popularity weight is forced to
`0.0` unconditionally before scoring — the output is the same as if the
caller had passed a zero popularity weight — and when every other weight
is zero, every candidate (in particular one with no popularity field)
receives score `0.0` regardless of the target's popularity weight. -/
theorem rank_popularity_forced (cands : List Dict) (tv wv : List ℚ)
    (hne : cands ≠ []) (hw : wv.length = FEATURE_ORDER.length)
    (hz : ∀ i, i < FEATURE_ORDER.length →
      i ≠ FEATURE_ORDER.indexOf "popularity" → wv.getD i 0 = 0) :
    rank_reccobeats_candidates cands tv wv
      = rank_reccobeats_candidates cands tv
          (wv.set (FEATURE_ORDER.indexOf "popularity") 0) ∧
    ∀ d ∈ rank_reccobeats_candidates cands tv wv, score_of d = 0 := by
  constructor
  · unfold rank_reccobeats_candidates annotated_results rank_scores rb_weights
    rw [List.set_set]
  · intro d hd
    unfold rank_reccobeats_candidates at hd
    rw [if_neg hne, List.mem_insertionSort] at hd
    unfold annotated_results at hd
    obtain ⟨p, hp, rfl⟩ := List.mem_map.mp hd
    have hall : ∀ x ∈ rb_weights wv, x = 0 := by
      intro x hx
      unfold rb_weights at hx
      rw [List.mem_iff_getElem] at hx
      obtain ⟨j, hj, rfl⟩ := hx
      rw [List.length_set] at hj
      rw [List.getElem_set]
      split_ifs with hj5
      · rfl
      · have hjF : j < FEATURE_ORDER.length := by rw [← hw]; exact hj
        have := hz j hjF (fun hh => hj5 hh.symm)
        rwa [List.getD_eq_getElem _ _ hj] at this
    have hscores : ∀ x ∈ rank_scores cands tv wv, x = 0 := by
      intro x hx
      unfold rank_scores calculate_weighted_distance at hx
      obtain ⟨row, _, rfl⟩ := List.mem_map.mp hx
      exact zipWith_mul_sum_zero _ _ hall
    rw [score_of, dict_get_set_self]
    simp only [Option.getD_some]
    exact getD_zero_of_all_zero _ hscores p.1

/-- Witness for C6: the spec's scenario — candidate `{tempo: 100}` with no
popularity field, target popularity 100 weighted 10, all other weights
zero — scores `0.0`. -/
theorem rank_popularity_forced_witness :
    ([[("tempo", some (100 : ℚ))]] : List Dict) ≠ [] ∧
    [(0 : ℚ), 0, 0, 0, 0, 10].length = FEATURE_ORDER.length ∧
    (∀ i, i < FEATURE_ORDER.length → i ≠ FEATURE_ORDER.indexOf "popularity" →
      [(0 : ℚ), 0, 0, 0, 0, 10].getD i 0 = 0) ∧
    (rank_reccobeats_candidates [[("tempo", some (100 : ℚ))]]
        [0, 0, 0, 0, 0, 100] [0, 0, 0, 0, 0, 10]
      = rank_reccobeats_candidates [[("tempo", some (100 : ℚ))]]
          [0, 0, 0, 0, 0, 100]
          ([(0 : ℚ), 0, 0, 0, 0, 10].set (FEATURE_ORDER.indexOf "popularity") 0) ∧
    ∀ d ∈ rank_reccobeats_candidates [[("tempo", some (100 : ℚ))]]
        [0, 0, 0, 0, 0, 100] [0, 0, 0, 0, 0, 10], score_of d = 0) :=
  ⟨by decide, by decide, by decide,
    rank_popularity_forced [[("tempo", some (100 : ℚ))]]
      [0, 0, 0, 0, 0, 100] [0, 0, 0, 0, 0, 10]
      (by decide) (by decide) (by decide)⟩

/-- C7: every candidate's sparse feature map expands to an F-length row in
Feature Schema order; a feature missing from the map contributes raw `0.0`
and hence normalized `0.0` (it is not weight-masked), and a present
feature is normalized by the per-feature normalizer. -/
theorem build_candidate_row_spec (track : Dict) (i : ℕ)
    (hi : i < FEATURE_ORDER.length) :
    (build_candidate_row track).length = FEATURE_ORDER.length ∧
    (List.lookup (FEATURE_ORDER.getD i "") track = none →
      (build_candidate_row track).getD i 0 = 0) ∧
    (∀ v, List.lookup (FEATURE_ORDER.getD i "") track = some v →
      (build_candidate_row track).getD i 0
        = normalize_value (FEATURE_ORDER.getD i "") v) := by
  have hval : (build_candidate_row track).getD i 0
      = normalize_value (FEATURE_ORDER.getD i "")
          (dict_get track (FEATURE_ORDER.getD i "") (some 0)) := by
    unfold build_candidate_row
    rw [list_getD_map _ _ hi 0 ""]
  refine ⟨by simp [build_candidate_row], ?_, ?_⟩
  · intro h
    rw [hval]
    unfold dict_get
    rw [h]
    exact normalize_value_zero _
  · intro v h
    rw [hval]
    unfold dict_get
    rw [h]

/-- Witness for C7: candidate `{tempo: 100}` at the `tempo` index (3):
present value normalized, and the row has schema length. -/
theorem build_candidate_row_spec_witness :
    3 < FEATURE_ORDER.length ∧
    ((build_candidate_row [("tempo", some (100 : ℚ))]).length = FEATURE_ORDER.length ∧
      (List.lookup (FEATURE_ORDER.getD 3 "") ([("tempo", some (100 : ℚ))] : Dict) = none →
        (build_candidate_row [("tempo", some (100 : ℚ))]).getD 3 0 = 0) ∧
      (∀ v, List.lookup (FEATURE_ORDER.getD 3 "")
            ([("tempo", some (100 : ℚ))] : Dict) = some v →
        (build_candidate_row [("tempo", some (100 : ℚ))]).getD 3 0
          = normalize_value (FEATURE_ORDER.getD 3 "") v)) :=
  ⟨by decide, build_candidate_row_spec [("tempo", some (100 : ℚ))] 3 (by decide)⟩

/-- Stability of one ordered insertion with respect to the exact-score
fibers: inserting `a` never crosses an element with the same score, so
filtering any exact score value commutes with the insertion. -/
theorem filter_score_orderedInsert (q : ℚ) (a : Dict) (l : List Dict) :
    (List.orderedInsert cand_le a l).filter (fun d => decide (score_of d = q))
      = ((a :: l).filter (fun d => decide (score_of d = q))) := by
  induction l with
  | nil => rfl
  | cons b t ih =>
    by_cases hab : cand_le a b
    · rw [List.orderedInsert, if_pos hab]
    · rw [List.orderedInsert, if_neg hab]
      unfold cand_le at hab
      have hba : score_of b < score_of a := not_le.mp hab
      by_cases haq : score_of a = q
      · have hbq : ¬score_of b = q := by
          rw [← haq]
          exact ne_of_lt hba
        simp only [List.filter_cons] at ih ⊢
        rw [ih]
        simp [haq, hbq]
      · simp only [List.filter_cons] at ih ⊢
        rw [ih]
        simp [haq]

/-- Stability of the full insertion sort on the exact-score fibers. -/
theorem filter_score_insertionSort (q : ℚ) (l : List Dict) :
    (List.insertionSort cand_le l).filter (fun d => decide (score_of d = q))
      = l.filter (fun d => decide (score_of d = q)) := by
  induction l with
  | nil => rfl
  | cons a t ih =>
    rw [List.insertionSort, filter_score_orderedInsert]
    simp only [List.filter_cons, ih]

/-- C8: `rank_reccobeats_candidates` maps the empty input to the empty
output, returns a permutation of the full annotated input list, sorted
ascending by score, and exact-score ties keep their relative input order
(the filter at each exact score value equals the filter of the
input-ordered annotated list). -/
theorem rank_output_order (cands : List Dict) (tv wv : List ℚ) :
    rank_reccobeats_candidates [] tv wv = [] ∧
    List.Perm (rank_reccobeats_candidates cands tv wv)
      (annotated_results cands tv wv) ∧
    List.Sorted cand_le (rank_reccobeats_candidates cands tv wv) ∧
    ∀ q : ℚ,
      (rank_reccobeats_candidates cands tv wv).filter
          (fun d => decide (score_of d = q))
        = (annotated_results cands tv wv).filter
            (fun d => decide (score_of d = q)) := by
  refine ⟨by simp [rank_reccobeats_candidates], ?_, ?_, ?_⟩
  · unfold rank_reccobeats_candidates
    split_ifs with h
    · rw [h]
      simp [annotated_results]
    · exact List.perm_insertionSort _ _
  · unfold rank_reccobeats_candidates
    split_ifs with h
    · exact List.sorted_nil
    · exact List.sorted_insertionSort _ _
  · intro q
    unfold rank_reccobeats_candidates
    split_ifs with h
    · rw [h]
      simp [annotated_results]
    · exact filter_score_insertionSort q _

/-- C10 counterexample: a candidate that already carries the key
`'match_score_squared'` (value 42) does not retain that original pair in
the returned dictionary — the assignment after `track.copy()` overwrites
it with the computed score (0 here), so the output is not the input plus
a single added key. -/
theorem rank_key_overwrite_counterexample :
    List.lookup "match_score_squared"
        ([("match_score_squared", some (42 : ℚ))] : Dict) = some (some 42) ∧
    rank_reccobeats_candidates [[("match_score_squared", some (42 : ℚ))]]
        [0, 0, 0, 0, 0, 0] [0, 0, 0, 0, 0, 0]
      = [[("match_score_squared", some (0 : ℚ))]] ∧
    ∀ d ∈ rank_reccobeats_candidates [[("match_score_squared", some (42 : ℚ))]]
        [0, 0, 0, 0, 0, 0] [0, 0, 0, 0, 0, 0],
      List.lookup "match_score_squared" d ≠ some (some (42 : ℚ)) := by
  have hidx : FEATURE_ORDER.indexOf "popularity" = 5 := by decide
  have hall : ∀ x ∈ rb_weights [(0 : ℚ), 0, 0, 0, 0, 0], x = 0 := by
    intro x hx
    unfold rb_weights at hx
    rw [hidx] at hx
    simpa [List.set] using hx
  have hsc : rank_scores [[("match_score_squared", some (42 : ℚ))]]
      [0, 0, 0, 0, 0, 0] [0, 0, 0, 0, 0, 0] = [0] := by
    unfold rank_scores calculate_weighted_distance
    simp only [List.map_cons, List.map_nil]
    rw [zipWith_mul_sum_zero _ _ hall]
  have h2 : rank_reccobeats_candidates [[("match_score_squared", some (42 : ℚ))]]
      [0, 0, 0, 0, 0, 0] [0, 0, 0, 0, 0, 0]
        = [[("match_score_squared", some (0 : ℚ))]] := by
    unfold rank_reccobeats_candidates annotated_results
    rw [if_neg (by simp)]
    simp [hsc, dict_set, List.lookup, List.enum, List.insertionSort,
      List.orderedInsert]
  refine ⟨by decide, h2, ?_⟩
  rw [h2]
  intro d hd
  rw [List.mem_singleton] at hd
  subst hd
  simp [List.lookup]

/-- C10 as amended: the embedding is pure, so inputs are never mutated;
whenever no input candidate already contains the key
`'match_score_squared'`, the output is a permutation of copies of the
input candidates — each one exactly its source candidate with the single
pair `('match_score_squared', score)` appended — and every returned
dictionary is such a copy of one input candidate carrying its own score. -/
theorem rank_annotated_copies (cands : List Dict) (tv wv : List ℚ)
    (h : ∀ d ∈ cands, List.lookup "match_score_squared" d = none) :
    List.Perm (rank_reccobeats_candidates cands tv wv)
      ((cands.enum).map (fun p => p.2 ++ [("match_score_squared",
        some ((rank_scores cands tv wv).getD p.1 0))])) ∧
    ∀ d' ∈ rank_reccobeats_candidates cands tv wv,
      ∃ d ∈ cands, d' = d ++ [("match_score_squared", some (score_of d'))] := by
  have hmapeq : annotated_results cands tv wv
      = (cands.enum).map (fun p => p.2 ++ [("match_score_squared",
          some ((rank_scores cands tv wv).getD p.1 0))]) := by
    unfold annotated_results
    exact List.map_congr_left (fun p hp =>
      dict_set_of_lookup_none _ _ _ (h p.2 (List.snd_mem_of_mem_enum hp)))
  constructor
  · unfold rank_reccobeats_candidates
    split_ifs with hc
    · rw [hc]
      simp
    · rw [← hmapeq]
      exact List.perm_insertionSort _ _
  · intro d' hd'
    unfold rank_reccobeats_candidates at hd'
    split_ifs at hd' with hc
    · simp at hd'
    · rw [List.mem_insertionSort, hmapeq] at hd'
      obtain ⟨p, hp, rfl⟩ := List.mem_map.mp hd'
      refine ⟨p.2, List.snd_mem_of_mem_enum hp, ?_⟩
      have hs : score_of (p.2 ++ [("match_score_squared",
          some ((rank_scores cands tv wv).getD p.1 0))])
            = (rank_scores cands tv wv).getD p.1 0 := by
        rw [score_of]
        unfold dict_get
        rw [lookup_append_singleton _ _ _ (h p.2 (List.snd_mem_of_mem_enum hp))]
        rfl
      rw [hs]

/-- Witness for C10's amended claim on a concrete one-candidate input. -/
theorem rank_annotated_copies_witness :
    (∀ d ∈ ([[("tempo", some (100 : ℚ))]] : List Dict),
      List.lookup "match_score_squared" d = none) ∧
    (List.Perm
      (rank_reccobeats_candidates [[("tempo", some (100 : ℚ))]]
        [0, 0, 0, 0, 0, 0] [1, 1, 1, 1, 1, 1])
      ((([[("tempo", some (100 : ℚ))]] : List Dict).enum).map
        (fun p => p.2 ++ [("match_score_squared",
          some ((rank_scores [[("tempo", some (100 : ℚ))]]
            [0, 0, 0, 0, 0, 0] [1, 1, 1, 1, 1, 1]).getD p.1 0))])) ∧
    ∀ d' ∈ rank_reccobeats_candidates [[("tempo", some (100 : ℚ))]]
        [0, 0, 0, 0, 0, 0] [1, 1, 1, 1, 1, 1],
      ∃ d ∈ ([[("tempo", some (100 : ℚ))]] : List Dict),
        d' = d ++ [("match_score_squared", some (score_of d'))]) :=
  ⟨by decide,
    rank_annotated_copies [[("tempo", some (100 : ℚ))]]
      [0, 0, 0, 0, 0, 0] [1, 1, 1, 1, 1, 1] (by decide)⟩

end Promptify
